import Mathlib

/-!
Shallow embedding of the core of `adtui` (connection manager and directory
tree cache) and verification of the frozen claims about it.

Source files embedded:
- `src/adtui/services/connection_manager.py` (`ConnectionManager`)
- `src/adtui/adtree.py` (`ADTree`)

Conventions:
- Python strings are Lean `String`s; where substring matching matters
  (the error classifier) messages are `List Char` and `.lower()` is
  `List.map Char.toLower`.
- Python floats (retry delays) are modelled as `ℚ`.
- Threads, locks, timers and sleeps are not modelled as such; timer-driven
  code is modelled as explicit step functions on the manager state, and
  the blocking/scheduling behaviour of a call is part of its return value.
- A fallible remote search is an `Except Unit` value supplied by a
  `Remote` environment; `.error` means the underlying ldap3 call raised.
-/

namespace ConnMgr

/-- `ConnectionState` enumeration from `connection_manager.py`. -/
inductive ConnState where
  | disconnected
  | connecting
  | connected
  | reconnecting
  | failed
deriving DecidableEq, Repr

/-- Configuration slice of `ConnectionManager.__init__` relevant to the
claims: `max_retries`, `initial_retry_delay`, `max_retry_delay`.
Delays are floats in the source, modelled as rationals. -/
structure MConfig where
  max_retries : Nat
  initial_retry_delay : Rat
  max_retry_delay : Rat
deriving Repr

/-- Mutable state slice of `ConnectionManager`: `_state`, `_retry_count`,
and the `_stop_health_check` event (true means health checking stopped).
`_last_error` strings and the connection handle are not needed by any
claim and are omitted. -/
structure MState where
  state : ConnState
  retry_count : Nat
  health_stopped : Bool
deriving DecidableEq, Repr

/-- The fixed list `auth_indicators` of `_is_authentication_error`,
as lists of characters. -/
def auth_indicators : List (List Char) :=
  [ "invalid credentials".toList,
    "invalidcredentials".toList,
    "automatic bind not successful - invalidcredentials".toList,
    "authentication failed".toList,
    "bind failed".toList,
    "access denied".toList,
    "login failed".toList,
    "unauthorized".toList,
    "invalid username".toList,
    "invalid password".toList ]

/-- `ConnectionManager._is_authentication_error`. The empty string is
falsy in Python, hence the leading guard; `error_message.lower()` is
`map Char.toLower`; Python `in` on strings is list-infix `<:+:` on the
character lists. The final check is
`'49' in error_message or 'code 49' in error_lower`. -/
def _is_authentication_error (msg : List Char) : Bool :=
  if msg = [] then false
  else
    let error_lower := msg.map Char.toLower
    if auth_indicators.any (fun ind => decide (ind <:+: error_lower)) then true
    else if decide ("49".toList <:+: msg) || decide ("code 49".toList <:+: error_lower) then
      true
    else false

/-- The classification the spec describes: the message case-insensitively
contains one of the fixed phrases, or contains the bad-credentials status
code 49 (`'49'` in the raw message or `'code 49'` in the lowered one). -/
def auth_error_spec (msg : List Char) : Prop :=
  (∃ ind ∈ auth_indicators, ind <:+: msg.map Char.toLower) ∨
    "49".toList <:+: msg ∨ "code 49".toList <:+: msg.map Char.toLower

/-- `ConnectionManager._schedule_reconnect`. Returns the new manager state
together with the delay of the reconnect timer it started (`none` when it
gave up and transitioned to `failed`). The `_set_state` error strings are
not modelled. -/
def _schedule_reconnect (cfg : MConfig) (s : MState) : MState × Option Rat :=
  if cfg.max_retries ≤ s.retry_count then
    ({ s with state := .failed }, none)
  else
    let delay := min (cfg.initial_retry_delay * 2 ^ s.retry_count) cfg.max_retry_delay
    ({ s with retry_count := s.retry_count + 1, state := .reconnecting }, some delay)

/-- The backoff delay `_schedule_reconnect` computes when `retry_count = n`:
`min(initial_retry_delay * (2 ** n), max_retry_delay)`. -/
def delayAt (cfg : MConfig) (n : Nat) : Rat :=
  min (cfg.initial_retry_delay * 2 ^ n) cfg.max_retry_delay

/-- `ConnectionManager.close`: sets the `_stop_health_check` event, cancels
the health timer, unbinds and drops the connection, and sets state
`DISCONNECTED`. It does not touch any pending reconnect timer. -/
def close (s : MState) : MState :=
  { s with health_stopped := true, state := .disconnected }

/-- Success path of `ConnectionManager._reconnect`, the body run by a
reconnect timer when the fresh bind succeeds: sets state `CONNECTED`,
resets `_retry_count`, and calls `_start_health_check` (which clears the
`_stop_health_check` event and re-arms the timer). The source has no
guard that the manager is still open. -/
def _reconnect_success (s : MState) : MState :=
  { s with state := .connected, retry_count := 0, health_stopped := false }

/-- Result of a `get_connection` call: the returned handle (modelled as
`Option Unit`), the manager state afterwards, the delay of any reconnect
timer the call scheduled, and whether the call blocked in the polling
wait loop. -/
structure GetConnResult where
  conn : Option Unit
  after : MState
  scheduled : Option Rat
  blocked : Bool
deriving DecidableEq, Repr

/-- `ConnectionManager.get_connection`. In the `RECONNECTING` branch the
call polls for up to 5 seconds while a concurrent reconnect runs;
`stateAfterWait` is the state observed at the end of that wait and is an
input to the model. Every other branch reads and acts on the current
state only. -/
def get_connection (cfg : MConfig) (s : MState) (stateAfterWait : ConnState) :
    GetConnResult :=
  match s.state with
  | .connected => ⟨some (), s, none, false⟩
  | .reconnecting =>
      if stateAfterWait = .connected then
        ⟨some (), { s with state := stateAfterWait }, none, true⟩
      else
        ⟨none, { s with state := stateAfterWait }, none, true⟩
  | .failed =>
      if s.retry_count < cfg.max_retries then
        let (s2, d) := _schedule_reconnect cfg s
        ⟨none, s2, d, false⟩
      else ⟨none, s, none, false⟩
  | .disconnected =>
      if s.retry_count < cfg.max_retries then
        let (s2, d) := _schedule_reconnect cfg s
        ⟨none, s2, d, false⟩
      else ⟨none, s, none, false⟩
  | .connecting => ⟨none, s, none, false⟩

/-- Loop body of `ConnectionManager.execute_with_retry`, indexed by the
attempt counter `operation_retry_count` (`count`). `conn i` tells whether
`get_connection` yields a handle on the i-th iteration, `op i` is the
outcome of invoking the operation on the i-th iteration. Returns the
overall outcome (`.ok none` corresponds to the loop exiting and the
Python function returning `None`), the number of times the operation was
invoked, and the number of times `_trigger_auth_failure` ran. `fuel`
bounds the remaining iterations; called with `fuel = 3 - count` it is
exactly the `while operation_retry_count < max_operation_retries` loop. -/
def ewr_loop {α : Type} (conn : Nat → Bool) (op : Nat → Except (List Char) α) :
    Nat → Nat → Except (List Char) (Option α) × Nat × Nat
  | 0, _ => (.ok none, 0, 0)
  | fuel + 1, count =>
    if count < 3 then
      if conn count then
        match op count with
        | .ok v => (.ok (some v), 1, 0)
        | .error e =>
          if _is_authentication_error e then
            (.error ("Authentication failed: ".toList ++ e), 1, 1)
          else if 3 ≤ count + 1 then
            (.error e, 1, 0)
          else
            match ewr_loop conn op fuel (count + 1) with
            | (res, n, a) => (res, n + 1, a)
      else (.error "No connection available".toList, 0, 0)
    else (.ok none, 0, 0)

/-- `ConnectionManager.execute_with_retry` with
`max_operation_retries = 3`, starting from `operation_retry_count = 0`. -/
def execute_with_retry {α : Type} (conn : Nat → Bool)
    (op : Nat → Except (List Char) α) : Except (List Char) (Option α) × Nat × Nat :=
  ewr_loop conn op 3 0

end ConnMgr

namespace ADTree

/-- One ldap3 result entry as `adtree.py` consumes it: optional `ou` and
`cn` attribute values, the entry DN, the `objectClass` values, and
`userAccountControl`. `none` stands for an absent attribute. -/
structure Entry where
  ou : Option String
  cn : Option String
  entry_dn : String
  objectClass : List String
  userAccountControl : Nat
deriving DecidableEq, Repr

/-- Python `str.lower()` over the string's characters (identical to the
source's behaviour on ASCII attribute values). -/
def str_lower (s : String) : String :=
  ⟨s.data.map Char.toLower⟩

/-- Python `s.split(",")` over the character list: always returns at
least one (possibly empty) component. -/
def split_commas : List Char → List (List Char)
  | [] => [[]]
  | c :: rest =>
    if c = ',' then [] :: split_commas rest
    else
      match split_commas rest with
      | [] => [[c]]
      | h :: t => (c :: h) :: t

/-- Python string `<=` (lexicographic by code point) on character
lists. -/
def charLeList : List Char → List Char → Bool
  | [], _ => true
  | _ :: _, [] => false
  | a :: as, b :: bs =>
    if a < b then true
    else if a = b then charLeList as bs
    else false

/-- Python truthiness of an optional attribute value: present and
non-empty. -/
def truthyStr : Option String → Option String
  | some v => if v.isEmpty then none else some v
  | none => none

/-- The `get_name` sort key of `_build_direct_children`: lowercased `ou`
when present and truthy, else lowercased `cn` when present and truthy,
else the empty string. -/
def get_name (e : Entry) : String :=
  match truthyStr e.ou with
  | some v => str_lower v
  | none =>
    match truthyStr e.cn with
    | some v => str_lower v
    | none => ""

/-- Display name a container entry gets in `_build_direct_children`:
`ou` or `cn` (truthy), else `"Unknown"`. -/
def container_name (e : Entry) : String :=
  match truthyStr e.ou with
  | some v => v
  | none =>
    match truthyStr e.cn with
    | some v => v
    | none => "Unknown"

/-- A tree node as added to the Textual tree: display label and the DN
stored in `node.data`. -/
structure Node where
  label : String
  data : Option String
deriving DecidableEq, Repr

/-- `ADTree._is_direct_child`: split the child DN on commas, drop the
first component, and compare the rest (joined back with commas) against
the parent DN. -/
def _is_direct_child (child_dn parent_dn : String) : Bool :=
  let child_components := split_commas child_dn.data
  if child_components.length ≤ 1 then false
  else String.mk (List.intercalate [','] child_components.tail) = parent_dn

/-- Sort order used by `sorted(conn.entries, key=get_name)`: Python
string comparison of the lowercased keys. -/
def contLe (a b : Entry) : Prop :=
  charLeList (get_name a).data (get_name b).data = true

instance : DecidableRel contLe :=
  fun a b =>
    inferInstanceAs (Decidable (charLeList (get_name a).data (get_name b).data = true))

instance : IsTotal Entry contLe := by
  constructor
  intro a b
  show charLeList (get_name a).data (get_name b).data = true ∨
    charLeList (get_name b).data (get_name a).data = true
  generalize (get_name a).data = x
  generalize (get_name b).data = y
  induction x generalizing y with
  | nil => exact Or.inl rfl
  | cons c cs ih =>
    cases y with
    | nil => exact Or.inr rfl
    | cons d ds =>
      rcases lt_trichotomy c d with h | h | h
      · exact Or.inl (by simp [charLeList, h])
      · subst h
        rcases ih ds with h2 | h2
        · exact Or.inl (by simp [charLeList, lt_irrefl, h2])
        · exact Or.inr (by simp [charLeList, lt_irrefl, h2])
      · exact Or.inr (by simp [charLeList, h])

instance : IsTrans Entry contLe := by
  constructor
  intro a b c
  show charLeList (get_name a).data (get_name b).data = true →
    charLeList (get_name b).data (get_name c).data = true →
    charLeList (get_name a).data (get_name c).data = true
  generalize (get_name a).data = x
  generalize (get_name b).data = y
  generalize (get_name c).data = z
  induction x generalizing y z with
  | nil => intro _ _; rfl
  | cons u us ih =>
    intro h1 h2
    cases y with
    | nil => exact absurd h1 (by simp [charLeList])
    | cons v vs =>
      cases z with
      | nil => exact absurd h2 (by simp [charLeList])
      | cons w ws =>
        by_cases huv : u < v
        · by_cases hvw : v < w
          · simp [charLeList, lt_trans huv hvw]
          · by_cases hvw2 : v = w
            · subst hvw2
              simp [charLeList, huv]
            · simp [charLeList, hvw, hvw2] at h2
        · by_cases huv2 : u = v
          · subst huv2
            simp [charLeList, huv, lt_irrefl] at h1
            by_cases hvw : u < w
            · simp [charLeList, hvw]
            · by_cases hvw2 : u = w
              · subst hvw2
                simp [charLeList, hvw, lt_irrefl] at h2
                simp [charLeList, hvw, lt_irrefl, ih vs ws h1 h2]
              · simp [charLeList, hvw, hvw2] at h2
          · simp [charLeList, huv, huv2] at h1

/-- Node built for a container entry: `parent_node.add(f"📁 {name}")`
with `node.data = entry_dn`. -/
def mkContainerNode (e : Entry) : Node :=
  ⟨"📁 " ++ container_name e, some e.entry_dn⟩

/-- Leaf node built in `populate_op` / `fresh_populate_op` for a non-OU
entry: users (dimmed when bit 2 of `userAccountControl` is set),
computers and groups get a node; anything else is skipped. -/
def freshLeafNode (e : Entry) : Option Node :=
  let cn := match e.cn with | some v => v | none => "Unknown"
  let obj_classes := e.objectClass.map str_lower
  if "user" ∈ obj_classes ∧ "computer" ∉ obj_classes then
    if e.userAccountControl &&& 2 = 2 then
      some ⟨"[dim]👤 " ++ cn ++ "[/]", some e.entry_dn⟩
    else
      some ⟨"👤 " ++ cn, some e.entry_dn⟩
  else if "computer" ∈ obj_classes then some ⟨"💻 " ++ cn, some e.entry_dn⟩
  else if "group" ∈ obj_classes then some ⟨"👥 " ++ cn, some e.entry_dn⟩
  else none

/-- Leaf node built in `_populate_from_cache` for a cached entry; unlike
`freshLeafNode` it never renders the disabled (dimmed) variant. -/
def cachedLeafNode (e : Entry) : Option Node :=
  let cn := match e.cn with | some v => v | none => "Unknown"
  let obj_classes := e.objectClass.map str_lower
  if "user" ∈ obj_classes ∧ "computer" ∉ obj_classes then
    some ⟨"👤 " ++ cn, some e.entry_dn⟩
  else if "computer" ∈ obj_classes then some ⟨"💻 " ++ cn, some e.entry_dn⟩
  else if "group" ∈ obj_classes then some ⟨"👥 " ++ cn, some e.entry_dn⟩
  else none

/-- The remote directory as the tree code sees it: for each base DN, the
result of the container search (`_build_direct_children`) and of the
non-OU object search (`populate_op`). `.error` means the ldap3 call
raised. -/
structure Remote where
  containers : String → Except Unit (List Entry)
  objects : String → Except Unit (List Entry)

/-- `ADTree` cache state: `loaded_ous` (a Python set of DNs) and
`ou_cache` (a dict from DN to the cached list of non-OU entries),
modelled as a list and an association list. -/
structure TreeState where
  loaded_ous : List String
  ou_cache : List (String × List Entry)
deriving DecidableEq, Repr

/-- Dict read `ou_cache.get(dn)` / `dn in ou_cache`. -/
def lookupCache (dn : String) (m : List (String × List Entry)) : Option (List Entry) :=
  match m.find? (fun p => p.1 = dn) with
  | some p => some p.2
  | none => none

/-- Dict delete `del ou_cache[dn]` (no-op when absent, as the call sites
guard with `if dn in ou_cache`). -/
def eraseCache (dn : String) (m : List (String × List Entry)) :
    List (String × List Entry) :=
  m.filter (fun p => ¬ p.1 = dn)

/-- Dict write `ou_cache[dn] = objects`. -/
def setCache (dn : String) (v : List Entry) (m : List (String × List Entry)) :
    List (String × List Entry) :=
  (dn, v) :: eraseCache dn m

/-- `ADTree._build_direct_children`: issues one container search for
`parent_dn`, sorts the results by `get_name`, keeps direct children, and
adds a `📁` node for each. A raised search error is swallowed inside the
function (its own try/except), leaving no children added. Returns the
nodes added and the number of remote searches issued on this (single,
successful or first) attempt. -/
def _build_direct_children (r : Remote) (parent_dn : String) : List Node × Nat :=
  match r.containers parent_dn with
  | .error _ => ([], 1)
  | .ok entries =>
    let sorted := List.insertionSort contLe entries
    ((sorted.filter (fun e => _is_direct_child e.entry_dn parent_dn)).map
      mkContainerNode, 1)

/-- `populate_op` inside `ADTree.populate_ou` (the body of
`fresh_populate_op` in `_populate_ou_fresh` is identical): clears the
node's children, adds direct child containers, runs the non-OU object
search, caches the direct-child results under `ou_dn`, and adds a leaf
node per object. Returns the new cache state, the node's children, the
number of searches issued, and whether the operation succeeded; when the
object search raises, the children built so far (the containers) stay on
the node and the cache is untouched. -/
def populate_op (r : Remote) (s : TreeState) (ou_dn : String) :
    TreeState × List Node × Nat × Bool :=
  let (contNodes, c1) := _build_direct_children r ou_dn
  match r.objects ou_dn with
  | .error _ => (s, contNodes, c1 + 1, false)
  | .ok entries =>
    let objects := entries.filter (fun e => _is_direct_child e.entry_dn ou_dn)
    ({ s with ou_cache := setCache ou_dn objects s.ou_cache },
      contNodes ++ objects.filterMap freshLeafNode, c1 + 1, true)

/-- `ADTree._populate_from_cache`: clears the node's children, re-adds
direct child containers (a fresh remote search), then renders the cached
object entries. -/
def _populate_from_cache (r : Remote) (ou_dn : String) (cached : List Entry) :
    List Node × Nat :=
  let (contNodes, c1) := _build_direct_children r ou_dn
  (contNodes ++ cached.filterMap cachedLeafNode, c1)

/-- `ADTree.populate_ou`: serve from `ou_cache` when the DN is cached,
otherwise run `populate_op` through `execute_with_retry`; a failure
escaping `execute_with_retry` is swallowed by the surrounding
try/except, so the state and children computed so far stand. -/
def populate_ou (r : Remote) (s : TreeState) (ou_dn : String) :
    TreeState × List Node × Nat :=
  match lookupCache ou_dn s.ou_cache with
  | some cached =>
    let (ch, c) := _populate_from_cache r ou_dn cached
    (s, ch, c)
  | none =>
    let (s2, ch, c, _ok) := populate_op r s ou_dn
    (s2, ch, c)

/-- `ADTree.on_tree_node_expanded`: when the node carries a truthy DN
(`if node.data and ...`) not yet in `loaded_ous`, mark it loaded and
populate it (in a worker thread); otherwise nothing happens and the node
keeps its current children. `children` is the node's current child list;
the returned list is its child list after the handler (and the spawned
populate) finish. -/
def on_tree_node_expanded (r : Remote) (s : TreeState) (data : Option String)
    (children : List Node) : TreeState × List Node × Nat :=
  match data with
  | none => (s, children, 0)
  | some dn =>
    if dn = "" then (s, children, 0)
    else if dn ∈ s.loaded_ous then (s, children, 0)
    else populate_ou r { s with loaded_ous := dn :: s.loaded_ous } dn

/-- `ADTree.refresh_current_ou` for a cursor node carrying DN `dn`:
deletes `dn` from `ou_cache` and `loaded_ous`, clears the node's
children, and repopulates with fresh data via `_populate_ou_fresh`
(whose operation body is `populate_op`). -/
def refresh_current_ou (r : Remote) (s : TreeState) (dn : String) :
    TreeState × List Node × Nat :=
  let s1 : TreeState :=
    { loaded_ous := s.loaded_ous.filter (fun x => ¬ x = dn),
      ou_cache := eraseCache dn s.ou_cache }
  let (s2, ch, c, _ok) := populate_op r s1 dn
  (s2, ch, c)

/-- The invariant claimed by the spec: a DN is in `loaded_ous` iff
`ou_cache` holds an entry for it. -/
def cacheInvariant (s : TreeState) : Prop :=
  ∀ d, d ∈ s.loaded_ous ↔ (lookupCache d s.ou_cache).isSome

/-- Case-insensitive alphabetical order on node display labels, the order
the spec claims within each display group. -/
def nodeLabelLe (a b : Node) : Prop :=
  charLeList (str_lower a.label).data (str_lower b.label).data = true

instance : DecidableRel nodeLabelLe :=
  fun a b => inferInstanceAs
    (Decidable (charLeList (str_lower a.label).data (str_lower b.label).data = true))

/-- A Textual tree node as `remove_node_by_dn` and `_find_node_by_dn`
traverse it: label, `data` (the DN, when set) and ordered children. -/
inductive TNode where
  | mk : String → Option String → List TNode → TNode
deriving Repr

/-- Label of a tree node. -/
def TNode.label : TNode → String
  | .mk l _ _ => l

/-- The `data` attribute (DN) of a tree node. -/
def TNode.data : TNode → Option String
  | .mk _ d _ => d

/-- Children of a tree node. -/
def TNode.children : TNode → List TNode
  | .mk _ _ cs => cs

mutual

/-- Whether `_find_node_by_dn` would find `dn` in this subtree. -/
def containsDn (dn : String) : TNode → Bool
  | .mk _ d cs => d = some dn || containsDnList dn cs

/-- Whether `dn` occurs in any of these subtrees. -/
def containsDnList (dn : String) : List TNode → Bool
  | [] => false
  | c :: cs => containsDn dn c || containsDnList dn cs

end

/-- The `next_node` chosen by `remove_node_by_dn` when the removed node
sat between siblings `pre` and `post` under a parent labelled `l` with
data `d`: the next sibling when one exists, else the previous sibling,
else the parent — except that the widget root (`isRoot`) is never
selected (`if next_node and next_node != self.root`). The parent value
returned is the parent after removal. -/
def selOf (isRoot : Bool) (l : String) (d : Option String)
    (pre post : List TNode) : Option TNode :=
  match post with
  | nx :: _ => some nx
  | [] =>
    match pre.getLast? with
    | some pv => some pv
    | none => if isRoot then none else some (.mk l d [])

mutual

/-- Removal of the first node (in the preorder `_find_node_by_dn` uses)
among the strict descendants of this node whose `data` equals `dn`.
Returns the rewritten node together with the selection target, or `none`
when `dn` does not occur below this node. `isRoot` records whether this
node is the widget root. -/
def removeGo (dn : String) (isRoot : Bool) : TNode → Option (TNode × Option TNode)
  | .mk l d cs => removeInChildren dn isRoot l d [] cs

/-- Walk of a child list: `pre` accumulates the already-visited siblings.
Each child is tested for a direct `data` hit before its own subtree is
searched, matching the depth-first order of `_find_node_by_dn`. -/
def removeInChildren (dn : String) (isRoot : Bool) (l : String)
    (d : Option String) (pre : List TNode) :
    List TNode → Option (TNode × Option TNode)
  | [] => none
  | c :: post =>
    if c.data = some dn then
      some (.mk l d (pre ++ post), selOf isRoot l d pre post)
    else
      match removeGo dn false c with
      | some (c2, sel) => some (.mk l d (pre ++ c2 :: post), sel)
      | none => removeInChildren dn isRoot l d (pre ++ [c]) post

end

/-- `ADTree.remove_node_by_dn`: locate the node by DN, detach it, and
select the next appropriate node. Returns whether removal happened, the
tree afterwards, and the node passed to `select_node` (`none` when
nothing was selected). When `_find_node_by_dn` returns the widget root
itself its `parent` is `None` and the function returns `False` without
removing anything. -/
def remove_node_by_dn (root : TNode) (dn : String) : Bool × TNode × Option TNode :=
  if root.data = some dn then (false, root, none)
  else
    match removeGo dn true root with
    | none => (false, root, none)
    | some (r2, sel) => (true, r2, sel)

end ADTree

namespace Examples

open ADTree

/-- A remote whose searches all succeed with empty result sets. -/
def rEmptyOk : Remote := ⟨fun _ => .ok [], fun _ => .ok []⟩

/-- A remote whose container searches succeed (empty) and whose object
searches raise. -/
def rObjFail : Remote := ⟨fun _ => .ok [], fun _ => .error ()⟩

/-- A cached user entry below `ou=a,dc=x`. -/
def entryBob : Entry := ⟨none, some "Bob", "cn=Bob,ou=a,dc=x", ["user"], 0⟩

/-- A tree-cache state in which `ou=a,dc=x` is loaded and cached with one
entry. -/
def s7 : TreeState := ⟨["ou=a,dc=x"], [("ou=a,dc=x", [entryBob])]⟩

/-- A group entry named `b`, directly below `dc=x`. -/
def gB : Entry := ⟨none, some "b", "cn=b,dc=x", ["group"], 0⟩

/-- A group entry named `a`, directly below `dc=x`. -/
def gA : Entry := ⟨none, some "a", "cn=a,dc=x", ["group"], 0⟩

/-- A remote returning the two groups in the order `b`, `a` for the
object search. -/
def rC6 : Remote := ⟨fun _ => .ok [], fun _ => .ok [gB, gA]⟩

end Examples

open ConnMgr ADTree Examples

/-- C5: `_schedule_reconnect` transitions to `failed` and schedules
nothing when `retry_count ≥ max_retries`; otherwise it schedules a
reconnect after `min(initial_retry_delay * 2 ^ retry_count,
max_retry_delay)` and increments `retry_count`; across consecutive
failures the delays are monotonically non-decreasing and never exceed
`max_retry_delay`. -/
theorem claim_C5_schedule_reconnect_backoff (cfg : MConfig) (s : MState)
    (hi : 0 ≤ cfg.initial_retry_delay) :
    (cfg.max_retries ≤ s.retry_count →
      _schedule_reconnect cfg s = ({ s with state := .failed }, none)) ∧
    (s.retry_count < cfg.max_retries →
      _schedule_reconnect cfg s =
        ({ s with retry_count := s.retry_count + 1, state := .reconnecting },
          some (delayAt cfg s.retry_count))) ∧
    (∀ n, delayAt cfg n ≤ delayAt cfg (n + 1)) ∧
    (∀ n, delayAt cfg n ≤ cfg.max_retry_delay) := by
  refine ⟨fun h => ?_, fun h => ?_, fun n => ?_, fun n => min_le_right _ _⟩
  · simp [_schedule_reconnect, h]
  · simp [_schedule_reconnect, delayAt, Nat.not_le.mpr h]
  · exact min_le_min
      (mul_le_mul_of_nonneg_left (pow_le_pow_right₀ one_le_two (Nat.le_succ n)) hi)
      le_rfl

/-- Witness for C5 at `max_retries = 5`, `initial_retry_delay = 1`,
`max_retry_delay = 60`, `retry_count = 2`: the scheduled delay is
`min(1 * 2^2, 60) = 4` and the count becomes 3. -/
theorem claim_C5_witness :
    _schedule_reconnect ⟨5, 1, 60⟩ ⟨.failed, 2, false⟩ =
      (⟨.reconnecting, 3, false⟩, some 4) := by
  have h := (claim_C5_schedule_reconnect_backoff ⟨5, 1, 60⟩ ⟨.failed, 2, false⟩
    (by norm_num)).2.1 (by norm_num)
  rw [h]
  norm_num [delayAt]

/-- C10: when the manager state is `connecting`, `get_connection`
returns `None` immediately: no blocking, nothing scheduled, state and
retry count unchanged. -/
theorem claim_C10_get_connection_connecting (cfg : MConfig) (s : MState)
    (w : ConnState) (h : s.state = .connecting) :
    get_connection cfg s w = ⟨none, s, none, false⟩ := by
  simp [get_connection, h]

/-- Witness for C10 at a concrete state. -/
theorem claim_C10_witness :
    get_connection ⟨5, 1, 60⟩ ⟨.connecting, 1, false⟩ .connected =
      ⟨none, ⟨.connecting, 1, false⟩, none, false⟩ :=
  claim_C10_get_connection_connecting ⟨5, 1, 60⟩ ⟨.connecting, 1, false⟩
    .connected rfl

/-- C2 (code bug): a reconnect timer that fires after `close()` is not
discarded — `_reconnect` has no closed-check, so its success path sets
the state to `connected` (not `disconnected`) and even restarts health
checking (`health_stopped` back to `false`). Evaluated here at a manager
that was reconnecting with `retry_count = 2` when `close()` ran. -/
theorem claim_C2_late_reconnect_observed :
    (_reconnect_success (close ⟨.reconnecting, 2, false⟩)).state =
        ConnState.connected ∧
      (_reconnect_success (close ⟨.reconnecting, 2, false⟩)).state ≠
        ConnState.disconnected ∧
      (_reconnect_success (close ⟨.reconnecting, 2, false⟩)).health_stopped =
        false := by
  decide

/-- C9: the classifier returns `true` exactly when the message
case-insensitively contains one of the fixed authentication phrases or
the bad-credentials status code 49; every other message — including the
empty one — is classified transient (`false`). -/
theorem claim_C9_classifier_exact (msg : List Char) :
    _is_authentication_error msg = true ↔ auth_error_spec msg := by
  by_cases hm : msg = []
  · subst hm
    unfold _is_authentication_error auth_error_spec
    simp only [List.map_nil, List.infix_nil, if_pos rfl]
    constructor
    · intro h
      exact absurd h (by decide)
    · intro h
      exact absurd h (by decide)
  · unfold _is_authentication_error auth_error_spec
    simp only [if_neg hm]
    constructor
    · intro h
      split at h
      next h1 =>
        rcases List.any_eq_true.mp h1 with ⟨ind, hind, hinf⟩
        exact Or.inl ⟨ind, hind, of_decide_eq_true hinf⟩
      next h1 =>
        split at h
        next h2 =>
          rcases Bool.or_eq_true_iff.mp h2 with h3 | h3
          · exact Or.inr (Or.inl (of_decide_eq_true h3))
          · exact Or.inr (Or.inr (of_decide_eq_true h3))
        next h2 => exact absurd h (by simp)
    · intro h
      rcases h with ⟨ind, hind, hinf⟩ | h3 | h3
      · have ha : auth_indicators.any
            (fun ind => decide (ind <:+: msg.map Char.toLower)) = true :=
          List.any_eq_true.mpr ⟨ind, hind, decide_eq_true hinf⟩
        simp [ha]
      · have ha : decide ("49".toList <:+: msg) = true := decide_eq_true h3
        by_cases hany : (auth_indicators.any
            fun ind => decide (ind <:+: msg.map Char.toLower)) = true
        · simp [hany]
        · simp only [Bool.not_eq_true] at hany
          simp only [hany, Bool.false_eq_true, if_false]
          simp [ha]
          exact Or.inl h3
      · have ha : decide ("code 49".toList <:+: msg.map Char.toLower) = true :=
          decide_eq_true h3
        by_cases hany : (auth_indicators.any
            fun ind => decide (ind <:+: msg.map Char.toLower)) = true
        · simp [hany]
        · simp only [Bool.not_eq_true] at hany
          simp only [hany, Bool.false_eq_true, if_false]
          simp [ha]
          exact Or.inr h3

/-- C1: when the k-th invocation of the operation (with every earlier
invocation failing transiently and a connection available each time)
raises an error classified as an authentication failure,
`execute_with_retry` triggers the auth-failure callback exactly once,
re-raises as an authentication error, and performs no further attempts —
the operation ran exactly `k + 1` times regardless of remaining attempt
budget. -/
theorem claim_C1_auth_aborts_retry {α : Type} (conn : Nat → Bool)
    (op : Nat → Except (List Char) α) (k : Nat) (e : List Char)
    (hk : k < 3)
    (hconn : ∀ i, i ≤ k → conn i = true)
    (hpre : ∀ i, i < k →
      ∃ t, op i = .error t ∧ _is_authentication_error t = false)
    (hop : op k = .error e)
    (hauth : _is_authentication_error e = true) :
    execute_with_retry conn op =
      (.error ("Authentication failed: ".toList ++ e), k + 1, 1) := by
  interval_cases k
  · simp [execute_with_retry, ewr_loop, hconn 0 (by omega), hop, hauth]
  · obtain ⟨t0, h0, h0a⟩ := hpre 0 (by omega)
    simp [execute_with_retry, ewr_loop, hconn 0 (by omega), hconn 1 (by omega),
      h0, h0a, hop, hauth]
  · obtain ⟨t0, h0, h0a⟩ := hpre 0 (by omega)
    obtain ⟨t1, h1, h1a⟩ := hpre 1 (by omega)
    simp [execute_with_retry, ewr_loop, hconn 0 (by omega), hconn 1 (by omega),
      hconn 2 (by omega), h0, h0a, h1, h1a, hop, hauth]

/-- Witness for C1: an operation that always raises
`"invalid credentials"` with a connection always available aborts on the
first attempt with one auth-callback invocation. -/
theorem claim_C1_witness :
    execute_with_retry (fun _ => true)
        (fun _ : Nat => (.error "invalid credentials".toList : Except (List Char) Unit)) =
      (.error ("Authentication failed: ".toList ++ "invalid credentials".toList), 1, 1) :=
  claim_C1_auth_aborts_retry (fun _ => true)
    (fun _ => .error "invalid credentials".toList) 0 "invalid credentials".toList
    (by omega) (fun i _ => rfl) (fun i hi => absurd hi (by omega)) rfl (by decide)

/-- Looking up a key just deleted from the cache yields nothing. -/
theorem lookupCache_eraseCache_self (dn : String)
    (m : List (String × List Entry)) :
    lookupCache dn (eraseCache dn m) = none := by
  induction m with
  | nil => rfl
  | cons p t ih =>
    by_cases h : p.1 = dn
    · simpa [eraseCache, List.filter_cons, h] using ih
    · simpa [eraseCache, lookupCache, List.filter_cons, List.find?, h] using ih

/-- Deleting one key from the cache leaves lookups of other keys
unchanged. -/
theorem lookupCache_eraseCache_ne (d dn : String) (hd : d ≠ dn)
    (m : List (String × List Entry)) :
    lookupCache d (eraseCache dn m) = lookupCache d m := by
  induction m with
  | nil => rfl
  | cons p t ih =>
    by_cases h : p.1 = dn
    · have hnd : ¬ dn = d := fun hc => hd hc.symm
      simpa [eraseCache, lookupCache, List.filter_cons, List.find?, h, hnd] using ih
    · by_cases h2 : p.1 = d
      · simp [eraseCache, lookupCache, List.filter_cons, List.find?, h, h2, hd]
      · simpa [eraseCache, lookupCache, List.filter_cons, List.find?, h, h2] using ih

/-- Looking up a key just written to the cache yields the written
value. -/
theorem lookupCache_setCache_self (dn : String) (v : List Entry)
    (m : List (String × List Entry)) :
    lookupCache dn (setCache dn v m) = some v := by
  simp [setCache, lookupCache, List.find?]

/-- Writing one key to the cache leaves lookups of other keys
unchanged. -/
theorem lookupCache_setCache_ne (d dn : String) (hd : d ≠ dn)
    (v : List Entry) (m : List (String × List Entry)) :
    lookupCache d (setCache dn v m) = lookupCache d m := by
  have hnd : ¬ dn = d := fun hc => hd hc.symm
  simp only [setCache, lookupCache, List.find?, hnd, decide_False]
  exact lookupCache_eraseCache_ne d dn hd m

/-- C3 counterexample: the first expand of a fresh node issues two remote
searches (the container search of `_build_direct_children` plus the
object search of `populate_op`), not one as claimed. -/
theorem claim_C3_counterexample :
    (on_tree_node_expanded rEmptyOk ⟨[], []⟩ (some "ou=a,dc=x") []).2.2 = 2 ∧
      (on_tree_node_expanded rEmptyOk ⟨[], []⟩ (some "ou=a,dc=x") []).2.2 ≠ 1 := by
  constructor
  · decide
  · decide

/-- C3 amended: the first expand of an unloaded, uncached node whose two
searches succeed issues exactly two remote searches; a second expand of
the same node with no intervening refresh issues zero; a refresh always
issues exactly two remote searches regardless of cache state. -/
theorem claim_C3_fetch_counts (r : Remote) (s : TreeState) (dn : String)
    (prev : List Node) (cs os : List Entry)
    (hne : dn ≠ "")
    (hl : dn ∉ s.loaded_ous)
    (hc : lookupCache dn s.ou_cache = none)
    (hrc : r.containers dn = .ok cs)
    (hro : r.objects dn = .ok os) :
    (on_tree_node_expanded r s (some dn) prev).2.2 = 2 ∧
      (on_tree_node_expanded r
          (on_tree_node_expanded r s (some dn) prev).1 (some dn)
          (on_tree_node_expanded r s (some dn) prev).2.1).2.2 = 0 ∧
      (∀ s2 : TreeState, (refresh_current_ou r s2 dn).2.2 = 2) := by
  have hfirst :
      on_tree_node_expanded r s (some dn) prev =
        ({ loaded_ous := dn :: s.loaded_ous,
           ou_cache := setCache dn
             (os.filter (fun e => _is_direct_child e.entry_dn dn)) s.ou_cache },
          ((List.insertionSort contLe cs).filter
              (fun e => _is_direct_child e.entry_dn dn)).map mkContainerNode ++
            (os.filter (fun e => _is_direct_child e.entry_dn dn)).filterMap
              freshLeafNode, 2) := by
    simp [on_tree_node_expanded, hne, hl, populate_ou, hc, populate_op,
      _build_direct_children, hrc, hro]
  refine ⟨by rw [hfirst], ?_, fun s2 => ?_⟩
  · rw [hfirst]
    simp [on_tree_node_expanded, hne]
  · simp [refresh_current_ou, populate_op, _build_direct_children, hrc, hro]

/-- Witness for the amended C3 at a concrete remote and state. -/
theorem claim_C3_witness :
    (on_tree_node_expanded rEmptyOk ⟨["ou=other,dc=x"], []⟩
        (some "ou=a,dc=x") []).2.2 = 2 :=
  (claim_C3_fetch_counts rEmptyOk ⟨["ou=other,dc=x"], []⟩ "ou=a,dc=x" [] [] []
    (by decide) (by decide) rfl rfl rfl).1

/-- C4 counterexample: expanding a fresh node whose object search fails
leaves the DN in `loaded_ous` with no `ou_cache` entry, so the
loaded-iff-cached invariant does not hold after the operation. -/
theorem claim_C4_counterexample :
    (on_tree_node_expanded rObjFail ⟨[], []⟩ (some "ou=a,dc=x") []).1 =
        ⟨["ou=a,dc=x"], []⟩ ∧
      ¬ cacheInvariant ⟨["ou=a,dc=x"], []⟩ := by
  constructor
  · decide
  · intro h
    have hmem : "ou=a,dc=x" ∈ ["ou=a,dc=x"] := by decide
    have := (h "ou=a,dc=x").mp hmem
    simp [lookupCache] at this

/-- C4 amended: a successful expand updates `loaded_ous` and `ou_cache`
together and preserves the loaded-iff-cached invariant, but the two
structures are not kept in sync by the other operations: a successful
refresh leaves a cache entry for a DN that is no longer in `loaded_ous`,
and an expand whose object fetch fails leaves the DN in `loaded_ous`
with no cache entry. -/
theorem claim_C4_invariant_partial :
    (∀ (r : Remote) (s : TreeState) (dn : String) (prev : List Node)
        (cs os : List Entry), r.containers dn = .ok cs → r.objects dn = .ok os →
        cacheInvariant s →
        cacheInvariant (on_tree_node_expanded r s (some dn) prev).1) ∧
      (∀ (r : Remote) (s : TreeState) (dn : String) (cs os : List Entry),
        r.containers dn = .ok cs → r.objects dn = .ok os →
        dn ∉ (refresh_current_ou r s dn).1.loaded_ous ∧
          (lookupCache dn (refresh_current_ou r s dn).1.ou_cache).isSome = true) ∧
      (∀ (r : Remote) (s : TreeState) (dn : String) (prev : List Node),
        dn ≠ "" → r.objects dn = .error () → dn ∉ s.loaded_ous →
        lookupCache dn s.ou_cache = none →
        dn ∈ (on_tree_node_expanded r s (some dn) prev).1.loaded_ous ∧
          lookupCache dn (on_tree_node_expanded r s (some dn) prev).1.ou_cache =
            none) := by
  refine ⟨?_, ?_, ?_⟩
  · intro r s dn prev cs os hrc hro hinv
    by_cases hne : dn = ""
    · simpa [on_tree_node_expanded, hne] using hinv
    by_cases hl : dn ∈ s.loaded_ous
    · simpa [on_tree_node_expanded, hne, hl] using hinv
    · have hc : lookupCache dn s.ou_cache = none := by
        rw [← Option.not_isSome_iff_eq_none]
        intro hs
        exact hl ((hinv dn).mpr hs)
      have hstate :
          (on_tree_node_expanded r s (some dn) prev).1 =
            { loaded_ous := dn :: s.loaded_ous,
              ou_cache := setCache dn
                (os.filter (fun e => _is_direct_child e.entry_dn dn))
                s.ou_cache } := by
        simp [on_tree_node_expanded, hne, hl, populate_ou, hc, populate_op,
          _build_direct_children, hrc, hro]
      rw [hstate]
      intro d
      by_cases hd : d = dn
      · subst hd
        simp [lookupCache_setCache_self]
      · simp only [List.mem_cons]
        rw [lookupCache_setCache_ne d dn hd]
        constructor
        · intro h
          rcases h with h | h
          · exact absurd h hd
          · exact (hinv d).mp h
        · intro h
          exact Or.inr ((hinv d).mpr h)
  · intro r s dn cs os hrc hro
    have hstate :
        (refresh_current_ou r s dn).1 =
          { loaded_ous := s.loaded_ous.filter (fun x => ¬ x = dn),
            ou_cache := setCache dn
              (os.filter (fun e => _is_direct_child e.entry_dn dn))
              (eraseCache dn s.ou_cache) } := by
      simp [refresh_current_ou, populate_op, _build_direct_children, hrc, hro]
    rw [hstate]
    constructor
    · simp
    · simp [lookupCache_setCache_self]
  · intro r s dn prev hne hro hl hc
    rcases hbd : _build_direct_children r dn with ⟨cn, c1⟩
    have hstate :
        (on_tree_node_expanded r s (some dn) prev).1 =
          { loaded_ous := dn :: s.loaded_ous, ou_cache := s.ou_cache } := by
      simp [on_tree_node_expanded, hne, hl, populate_ou, hc, populate_op, hbd, hro]
    rw [hstate]
    exact ⟨List.mem_cons_self dn s.loaded_ous, hc⟩

/-- Witness for the amended C4: a successful refresh at a concrete state
leaves the DN cached but not loaded. -/
theorem claim_C4_witness :
    "ou=a,dc=x" ∉ (refresh_current_ou rEmptyOk s7 "ou=a,dc=x").1.loaded_ous ∧
      (lookupCache "ou=a,dc=x"
        (refresh_current_ou rEmptyOk s7 "ou=a,dc=x").1.ou_cache).isSome = true :=
  claim_C4_invariant_partial.2.1 rEmptyOk s7 "ou=a,dc=x" [] [] rfl rfl

/-- C6 counterexample: leaf entries are rendered in the order the server
returned them, not alphabetically — two groups returned as `b`, `a`
yield children `👥 b`, `👥 a`, which is not case-insensitively sorted. -/
theorem claim_C6_counterexample :
    (populate_op rC6 ⟨[], []⟩ "dc=x").2.1 =
        [⟨"👥 b", some "cn=b,dc=x"⟩, ⟨"👥 a", some "cn=a,dc=x"⟩] ∧
      ¬ List.Sorted nodeLabelLe
        [Node.mk "👥 b" (some "cn=b,dc=x"), Node.mk "👥 a" (some "cn=a,dc=x")] := by
  constructor
  · decide
  · decide

/-- C6 amended: every successful fetch renders all container nodes
before all leaf nodes; the container group is sorted case-insensitively
by name (key `get_name`); the leaf group preserves the server's return
order (it is not sorted); and a refresh of the node against the same
remote contents reproduces exactly the same child list. -/
theorem claim_C6_display_order (r : Remote) (s s2 : TreeState) (dn : String)
    (cs os : List Entry)
    (hrc : r.containers dn = .ok cs) (hro : r.objects dn = .ok os) :
    (populate_op r s dn).2.1 =
        ((List.insertionSort contLe cs).filter
            (fun e => _is_direct_child e.entry_dn dn)).map mkContainerNode ++
          (os.filter (fun e => _is_direct_child e.entry_dn dn)).filterMap
            freshLeafNode ∧
      List.Sorted contLe ((List.insertionSort contLe cs).filter
        (fun e => _is_direct_child e.entry_dn dn)) ∧
      (refresh_current_ou r s2 dn).2.1 = (populate_op r s dn).2.1 := by
  refine ⟨?_, ?_, ?_⟩
  · simp [populate_op, _build_direct_children, hrc, hro]
  · exact List.Pairwise.filter _ (List.sorted_insertionSort contLe cs)
  · simp [refresh_current_ou, populate_op, _build_direct_children, hrc, hro]

/-- Witness for the amended C6 at the concrete remote `rC6`. -/
theorem claim_C6_witness :
    (populate_op rC6 ⟨["x"], []⟩ "dc=x").2.1 =
        ((List.insertionSort contLe []).filter
            (fun e => _is_direct_child e.entry_dn "dc=x")).map mkContainerNode ++
          ([gB, gA].filter
            (fun e => _is_direct_child e.entry_dn "dc=x")).filterMap
            freshLeafNode :=
  (claim_C6_display_order rC6 ⟨["x"], []⟩ ⟨[], []⟩ "dc=x" [] [gB, gA]
    rfl rfl).1

/-- C7 counterexample: a refresh whose object fetch fails has already
deleted the node's cache entry and cleared its children — the previously
cached state is not left intact. -/
theorem claim_C7_counterexample :
    (lookupCache "ou=a,dc=x" s7.ou_cache).isSome = true ∧
      lookupCache "ou=a,dc=x"
          (refresh_current_ou rObjFail s7 "ou=a,dc=x").1.ou_cache = none ∧
      (refresh_current_ou rObjFail s7 "ou=a,dc=x").2.1 = [] := by
  refine ⟨by decide, by decide, by decide⟩

/-- C7 amended: `refresh_current_ou` deletes the DN's cache entry and
clears the node's children before fetching; when the object fetch fails
the cache entry stays absent and the node is left showing only the
freshly fetched container nodes — the previous cached children are
lost. -/
theorem claim_C7_refresh_destructive (r : Remote) (s : TreeState) (dn : String)
    (cs : List Entry)
    (hrc : r.containers dn = .ok cs) (hro : r.objects dn = .error ()) :
    lookupCache dn (refresh_current_ou r s dn).1.ou_cache = none ∧
      (refresh_current_ou r s dn).1.ou_cache = eraseCache dn s.ou_cache ∧
      (refresh_current_ou r s dn).2.1 =
        ((List.insertionSort contLe cs).filter
          (fun e => _is_direct_child e.entry_dn dn)).map mkContainerNode := by
  have hstate :
      refresh_current_ou r s dn =
        (⟨s.loaded_ous.filter (fun x => ¬ x = dn), eraseCache dn s.ou_cache⟩,
          ((List.insertionSort contLe cs).filter
            (fun e => _is_direct_child e.entry_dn dn)).map mkContainerNode, 2) := by
    simp [refresh_current_ou, populate_op, _build_direct_children, hrc, hro]
  rw [hstate]
  exact ⟨lookupCache_eraseCache_self dn s.ou_cache, rfl, rfl⟩

/-- Witness for the amended C7 at the concrete state `s7`. -/
theorem claim_C7_witness :
    lookupCache "ou=a,dc=x"
        (refresh_current_ou rObjFail ⟨[], [("ou=a,dc=x", [entryBob])]⟩
          "ou=a,dc=x").1.ou_cache = none :=
  (claim_C7_refresh_destructive rObjFail ⟨[], [("ou=a,dc=x", [entryBob])]⟩
    "ou=a,dc=x" [] rfl rfl).1

/-- When a DN occurs nowhere in a child list, the removal walk finds
nothing, whatever the accumulated prefix. -/
theorem removeInChildren_eq_none (dn : String) :
    ∀ (n : Nat) (cs : List TNode), sizeOf cs ≤ n →
      containsDnList dn cs = false →
      ∀ (b : Bool) (l : String) (d : Option String) (pre : List TNode),
        removeInChildren dn b l d pre cs = none := by
  intro n
  induction n with
  | zero =>
    intro cs hs
    exfalso
    cases cs <;> simp at hs
  | succ n ih =>
    intro cs hs h b l d pre
    cases cs with
    | nil => rw [removeInChildren]
    | cons c post =>
      obtain ⟨cl, cd, ccs⟩ := c
      simp only [containsDnList, containsDn, Bool.or_eq_false_iff,
        decide_eq_false_iff_not] at h
      obtain ⟨⟨hd, hcc⟩, hpost⟩ := h
      have hsz : sizeOf ccs ≤ n ∧ sizeOf post ≤ n := by
        simp only [List.cons.sizeOf_spec, TNode.mk.sizeOf_spec] at hs
        omega
      have hgo : removeGo dn false (TNode.mk cl cd ccs) = none := by
        rw [removeGo]
        exact ih ccs hsz.1 hcc false cl cd []
      rw [removeInChildren]
      simp only [TNode.data, if_neg hd, hgo]
      exact ih post hsz.2 hpost b l d (pre ++ [TNode.mk cl cd ccs])

/-- Walking past a prefix of dn-free siblings onto a direct hit: the hit
node is removed and the selection follows next-sibling / previous-sibling
/ parent. -/
theorem removeInChildren_hit (dn : String) (c : TNode)
    (hd : c.data = some dn) :
    ∀ (pre2 : List TNode), (∀ t ∈ pre2, containsDn dn t = false) →
      ∀ (b : Bool) (l : String) (d : Option String) (pre0 post : List TNode),
        removeInChildren dn b l d pre0 (pre2 ++ c :: post) =
          some (.mk l d ((pre0 ++ pre2) ++ post),
            selOf b l d (pre0 ++ pre2) post) := by
  intro pre2
  induction pre2 with
  | nil =>
    intro _ b l d pre0 post
    rw [List.nil_append, removeInChildren]
    simp [hd]
  | cons t ts ih =>
    intro hall b l d pre0 post
    have ht : containsDn dn t = false := hall t (List.mem_cons_self t ts)
    obtain ⟨tl, td, tcs⟩ := t
    simp only [containsDn, Bool.or_eq_false_iff, decide_eq_false_iff_not] at ht
    have hgo : removeGo dn false (TNode.mk tl td tcs) = none := by
      rw [removeGo]
      exact removeInChildren_eq_none dn (sizeOf tcs) tcs le_rfl ht.2 false tl td []
    rw [List.cons_append, removeInChildren]
    simp only [TNode.data, if_neg ht.1, hgo]
    have := ih (fun u hu => hall u (List.mem_cons_of_mem _ hu)) b l d
      (pre0 ++ [TNode.mk tl td tcs]) post
    rw [this]
    simp [List.append_assoc]

/-- Walking past a prefix of dn-free siblings onto a child whose own
subtree holds the hit: the rewritten child replaces the old one and the
inner selection is propagated unchanged. -/
theorem removeInChildren_step (dn : String) (c c2 : TNode) (sel : Option TNode)
    (hcd : ¬ c.data = some dn) (hgo : removeGo dn false c = some (c2, sel)) :
    ∀ (pre2 : List TNode), (∀ t ∈ pre2, containsDn dn t = false) →
      ∀ (b : Bool) (l : String) (d : Option String) (pre0 post : List TNode),
        removeInChildren dn b l d pre0 (pre2 ++ c :: post) =
          some (.mk l d ((pre0 ++ pre2) ++ c2 :: post), sel) := by
  intro pre2
  induction pre2 with
  | nil =>
    intro _ b l d pre0 post
    rw [List.nil_append, removeInChildren]
    simp [hcd, hgo]
  | cons t ts ih =>
    intro hall b l d pre0 post
    have ht : containsDn dn t = false := hall t (List.mem_cons_self t ts)
    obtain ⟨tl, td, tcs⟩ := t
    simp only [containsDn, Bool.or_eq_false_iff, decide_eq_false_iff_not] at ht
    have hgo2 : removeGo dn false (TNode.mk tl td tcs) = none := by
      rw [removeGo]
      exact removeInChildren_eq_none dn (sizeOf tcs) tcs le_rfl ht.2 false tl td []
    rw [List.cons_append, removeInChildren]
    simp only [TNode.data, if_neg ht.1, hgo2]
    have := ih (fun u hu => hall u (List.mem_cons_of_mem _ hu)) b l d
      (pre0 ++ [TNode.mk tl td tcs]) post
    rw [this]
    simp [List.append_assoc]

/-- C8: behaviour of `remove_node_by_dn`. A DN absent from the tree
changes nothing and returns `false`; removing a node found among the
children of a parent removes exactly that node and selects the next
sibling when one exists, else the previous sibling, else the parent
(never the widget root); hits deeper in the tree rewrite the child in
place and propagate the selection; any successful descent yields
`true` together with the rewritten tree and the selection. -/
theorem claim_C8_remove_node_by_dn :
    (∀ (root : TNode) (dn : String), containsDn dn root = false →
      remove_node_by_dn root dn = (false, root, none)) ∧
      (∀ (l : String) (d : Option String) (dn : String) (pre post : List TNode)
        (c : TNode), d ≠ some dn → (∀ t ∈ pre, containsDn dn t = false) →
        c.data = some dn →
        remove_node_by_dn (.mk l d (pre ++ c :: post)) dn =
          (true, .mk l d (pre ++ post), selOf true l d pre post)) ∧
      (∀ (l : String) (d : Option String) (dn : String) (b : Bool)
        (pre post : List TNode) (c : TNode),
        (∀ t ∈ pre, containsDn dn t = false) → c.data = some dn →
        removeInChildren dn b l d [] (pre ++ c :: post) =
          some (.mk l d (pre ++ post), selOf b l d pre post)) ∧
      (∀ (l : String) (d : Option String) (dn : String) (b : Bool)
        (pre post : List TNode) (c c2 : TNode) (sel : Option TNode),
        (∀ t ∈ pre, containsDn dn t = false) → ¬ c.data = some dn →
        removeGo dn false c = some (c2, sel) →
        removeInChildren dn b l d [] (pre ++ c :: post) =
          some (.mk l d (pre ++ c2 :: post), sel)) ∧
      (∀ (l : String) (d : Option String) (cs : List TNode) (dn : String)
        (r2 : TNode) (sel : Option TNode), d ≠ some dn →
        removeGo dn true (.mk l d cs) = some (r2, sel) →
        remove_node_by_dn (.mk l d cs) dn = (true, r2, sel)) := by
  refine ⟨?_, ?_, ?_, ?_, ?_⟩
  · intro root dn h
    obtain ⟨l, d, cs⟩ := root
    simp only [containsDn, Bool.or_eq_false_iff, decide_eq_false_iff_not] at h
    have hgo : removeGo dn true (TNode.mk l d cs) = none := by
      rw [removeGo]
      exact removeInChildren_eq_none dn (sizeOf cs) cs le_rfl h.2 true l d []
    rw [remove_node_by_dn]
    simp [TNode.data, h.1, hgo]
  · intro l d dn pre post c hd hall hc
    rw [remove_node_by_dn]
    have hgo : removeGo dn true (TNode.mk l d (pre ++ c :: post)) =
        some (.mk l d (pre ++ post), selOf true l d pre post) := by
      rw [removeGo]
      simpa using removeInChildren_hit dn c hc pre hall true l d [] post
    simp [TNode.data, hd, hgo]
  · intro l d dn b pre post c hall hc
    simpa using removeInChildren_hit dn c hc pre hall b l d [] post
  · intro l d dn b pre post c c2 sel hall hcd hgo
    simpa using removeInChildren_step dn c c2 sel hcd hgo pre hall b l d [] post
  · intro l d cs dn r2 sel hd hgo
    rw [remove_node_by_dn]
    simp [TNode.data, hd, hgo]

/-- Witness for C8: removing the middle of three siblings selects the
next sibling. -/
theorem claim_C8_witness :
    remove_node_by_dn
        (TNode.mk "p" (some "ou=p,dc=x")
          ([TNode.mk "a" (some "cn=a,dc=x") []] ++
            TNode.mk "b" (some "cn=b,dc=x") [] ::
              [TNode.mk "c" (some "cn=c,dc=x") []]))
        "cn=b,dc=x" =
      (true,
        TNode.mk "p" (some "ou=p,dc=x")
          ([TNode.mk "a" (some "cn=a,dc=x") []] ++
            [TNode.mk "c" (some "cn=c,dc=x") []]),
        selOf true "p" (some "ou=p,dc=x") [TNode.mk "a" (some "cn=a,dc=x") []]
          [TNode.mk "c" (some "cn=c,dc=x") []]) :=
  claim_C8_remove_node_by_dn.2.1 "p" (some "ou=p,dc=x") "cn=b,dc=x"
    [TNode.mk "a" (some "cn=a,dc=x") []] [TNode.mk "c" (some "cn=c,dc=x") []]
    (TNode.mk "b" (some "cn=b,dc=x") [])
    (by simp)
    (by
      intro t ht
      simp only [List.mem_singleton] at ht
      subst ht
      rw [containsDn]
      simp [containsDnList])
    rfl
